import Mathlib

/-!
Shallow embedding of the metadata-coordination core of the secondary-index
manager (source: src/secondary/manager/manager.go), together with the
stability-timestamp merge model described by the specification.  Pure Go
functions become Lean functions; the stateful pieces (the IndexManager
struct and the runTimestampKeeper aggregation loop) become explicit state
records with step functions; collaborator outcomes (repository writes,
coordinator acknowledgements, marshalling) are threaded in as explicit
inputs.
-/

namespace IndexingMgr

/-- Modelled from the spec: `TsVbuuid` is the `(vbucket, sequenceNumber, epochId)`
triple of section 3.  The concrete Go struct lives in the `common` package,
which is not under `src/`. -/
structure TsVbuuid where
  vbucket : Nat
  sequenceNumber : Nat
  epochId : Nat
deriving DecidableEq

/-- Modelled from the spec: the per-vbucket merge rule of section 3 -
"merging two timestamps for the same vbucket keeps the one with the higher
sequenceNumber (ties broken by higher epochId)".  The Go implementation
`timestampListSerializable.addTimestamp` is in the manager package but not
under `src/`; only its caller `runTimestampKeeper` is. -/
def mergeEntry (a b : TsVbuuid) : TsVbuuid :=
  if a.sequenceNumber < b.sequenceNumber then b
  else if b.sequenceNumber < a.sequenceNumber then a
  else if a.epochId < b.epochId then b else a

/-- Modelled from the spec: merging one report into the collection keeps at
most one entry per vbucket, combining with `mergeEntry` on a vbucket match
and appending otherwise. -/
def addTimestamp : List TsVbuuid → TsVbuuid → List TsVbuuid
  | [], r => [r]
  | e :: rest, r =>
    if e.vbucket = r.vbucket then mergeEntry e r :: rest
    else e :: addTimestamp rest r

/-- Point lookup of the entry kept for a vbucket (the spec's
`findTimestamp` restricted to one stream's collection). -/
def lookupVb : List TsVbuuid → Nat → Option TsVbuuid
  | [], _ => none
  | e :: rest, v => if e.vbucket = v then some e else lookupVb rest v

theorem mergeEntry_vbucket (a b : TsVbuuid) (h : a.vbucket = b.vbucket) :
    (mergeEntry a b).vbucket = a.vbucket := by
  unfold mergeEntry
  split_ifs <;> simp [h]

theorem mergeEntry_seq_ge_left (a b : TsVbuuid) :
    a.sequenceNumber ≤ (mergeEntry a b).sequenceNumber := by
  unfold mergeEntry
  split_ifs <;> omega

theorem mergeEntry_comm (a b : TsVbuuid) (h : a.vbucket = b.vbucket) :
    mergeEntry a b = mergeEntry b a := by
  obtain ⟨va, sa, ea⟩ := a
  obtain ⟨vb, sb, eb⟩ := b
  simp only [mergeEntry]
  split_ifs <;> simp_all <;> omega

theorem mergeEntry_idem (a : TsVbuuid) : mergeEntry a a = a := by
  simp [mergeEntry]

theorem mergeEntry_tie_epoch (a b : TsVbuuid) (h : a.sequenceNumber = b.sequenceNumber) :
    (mergeEntry a b).epochId = max a.epochId b.epochId := by
  unfold mergeEntry
  split_ifs <;> omega

theorem addTimestamp_map_vbucket (l : List TsVbuuid) (r : TsVbuuid) :
    (addTimestamp l r).map TsVbuuid.vbucket =
      if r.vbucket ∈ l.map TsVbuuid.vbucket then l.map TsVbuuid.vbucket
      else l.map TsVbuuid.vbucket ++ [r.vbucket] := by
  induction l with
  | nil => simp [addTimestamp]
  | cons e rest ih =>
    simp only [addTimestamp]
    by_cases h : e.vbucket = r.vbucket
    · rw [if_pos h]
      simp [mergeEntry_vbucket e r h, List.mem_cons, h.symm]
    · rw [if_neg h]
      simp only [List.map_cons, ih, List.mem_cons]
      by_cases hm : r.vbucket ∈ rest.map TsVbuuid.vbucket
      · simp [hm]
      · have hne : ¬ r.vbucket = e.vbucket := fun hc => h hc.symm
        simp [hm, hne]

theorem addTimestamp_nodup (l : List TsVbuuid) (r : TsVbuuid)
    (h : (l.map TsVbuuid.vbucket).Nodup) :
    ((addTimestamp l r).map TsVbuuid.vbucket).Nodup := by
  rw [addTimestamp_map_vbucket]
  split_ifs with hm
  · exact h
  · simp [List.nodup_append, h, hm]

theorem foldl_addTimestamp_nodup (rs : List TsVbuuid) :
    ∀ l : List TsVbuuid, (l.map TsVbuuid.vbucket).Nodup →
      ((rs.foldl addTimestamp l).map TsVbuuid.vbucket).Nodup := by
  induction rs with
  | nil => intro l h; simpa using h
  | cons r rest ih =>
    intro l h
    simpa using ih (addTimestamp l r) (addTimestamp_nodup l r h)

theorem addTimestamp_lookup_mono (r : TsVbuuid) (v : Nat) :
    ∀ (l : List TsVbuuid) (e : TsVbuuid), lookupVb l v = some e →
      ∃ e', lookupVb (addTimestamp l r) v = some e' ∧
        e.sequenceNumber ≤ e'.sequenceNumber := by
  intro l
  induction l with
  | nil => intro e h; simp [lookupVb] at h
  | cons x rest ih =>
    intro e h
    simp only [lookupVb] at h
    by_cases hx : x.vbucket = v
    · rw [if_pos hx] at h
      obtain rfl : x = e := by injection h
      by_cases hr : x.vbucket = r.vbucket
      · have hv : (mergeEntry x r).vbucket = v := by
          rw [mergeEntry_vbucket x r hr, hx]
        refine ⟨mergeEntry x r, ?_, mergeEntry_seq_ge_left x r⟩
        simp only [addTimestamp]
        rw [if_pos hr]
        simp only [lookupVb]
        rw [if_pos hv]
      · refine ⟨x, ?_, le_refl _⟩
        simp only [addTimestamp]
        rw [if_neg hr]
        simp only [lookupVb]
        rw [if_pos hx]
    · rw [if_neg hx] at h
      by_cases hr : x.vbucket = r.vbucket
      · refine ⟨e, ?_, le_refl _⟩
        have hv : ¬ (mergeEntry x r).vbucket = v := by
          rw [mergeEntry_vbucket x r hr]; exact hx
        simp only [addTimestamp]
        rw [if_pos hr]
        simp only [lookupVb]
        rw [if_neg hv]
        exact h
      · obtain ⟨e', he', hle⟩ := ih e h
        refine ⟨e', ?_, hle⟩
        simp only [addTimestamp]
        rw [if_neg hr]
        simp only [lookupVb]
        rw [if_neg hx]
        exact he'

theorem foldl_addTimestamp_lookup_mono (rs : List TsVbuuid) (v : Nat) :
    ∀ (l : List TsVbuuid) (e : TsVbuuid), lookupVb l v = some e →
      ∃ e', lookupVb (rs.foldl addTimestamp l) v = some e' ∧
        e.sequenceNumber ≤ e'.sequenceNumber := by
  induction rs with
  | nil => intro l e h; exact ⟨e, by simpa using h, le_refl _⟩
  | cons r rest ih =>
    intro l e h
    obtain ⟨e1, he1, hle1⟩ := addTimestamp_lookup_mono r v l e h
    obtain ⟨e2, he2, hle2⟩ := ih (addTimestamp l r) e1 he1
    exact ⟨e2, by simpa using he2, le_trans hle1 hle2⟩

/-- Claim C1 (amended): merging TsVbuuid reports through `addTimestamp`
keeps at most one entry per vbucket, the kept entry's sequenceNumber is
non-decreasing over any sequence of merged reports, a higher epochId wins
only as a tie break at equal sequenceNumbers (the higher sequenceNumber
wins otherwise), and the pairwise merge of two reports for the same
vbucket is commutative and idempotent. -/
theorem addTimestamp_merge_props :
    (∀ l rs : List TsVbuuid, (l.map TsVbuuid.vbucket).Nodup →
      ((rs.foldl addTimestamp l).map TsVbuuid.vbucket).Nodup)
    ∧ (∀ (l rs : List TsVbuuid) (v : Nat) (e : TsVbuuid), lookupVb l v = some e →
        ∃ e', lookupVb (rs.foldl addTimestamp l) v = some e' ∧
          e.sequenceNumber ≤ e'.sequenceNumber)
    ∧ (∀ a b : TsVbuuid, a.sequenceNumber = b.sequenceNumber →
        (mergeEntry a b).epochId = max a.epochId b.epochId)
    ∧ (∀ a b : TsVbuuid, a.vbucket = b.vbucket → mergeEntry a b = mergeEntry b a)
    ∧ (∀ a : TsVbuuid, mergeEntry a a = a) := by
  refine ⟨?_, ?_, ?_, ?_, ?_⟩
  · intro l rs h; exact foldl_addTimestamp_nodup rs l h
  · intro l rs v e h; exact foldl_addTimestamp_lookup_mono rs v l e h
  · exact mergeEntry_tie_epoch
  · exact mergeEntry_comm
  · exact mergeEntry_idem

/-- Concrete instantiation of `addTimestamp_merge_props`, discharging its
hypotheses on explicit inputs. -/
theorem addTimestamp_merge_props_witness :
    ((([⟨0, 1, 1⟩] : List TsVbuuid).map TsVbuuid.vbucket).Nodup
      ∧ ((([⟨0, 2, 1⟩, ⟨1, 4, 1⟩] : List TsVbuuid).foldl addTimestamp
            [⟨0, 1, 1⟩]).map TsVbuuid.vbucket).Nodup)
    ∧ (lookupVb [⟨0, 1, 1⟩] 0 = some ⟨0, 1, 1⟩
      ∧ ∃ e', lookupVb (([⟨0, 2, 1⟩, ⟨1, 4, 1⟩] : List TsVbuuid).foldl addTimestamp
            [⟨0, 1, 1⟩]) 0 = some e' ∧ (1 : Nat) ≤ e'.sequenceNumber)
    ∧ ((⟨0, 3, 7⟩ : TsVbuuid).vbucket = (⟨0, 3, 2⟩ : TsVbuuid).vbucket
      ∧ mergeEntry ⟨0, 3, 7⟩ ⟨0, 3, 2⟩ = mergeEntry ⟨0, 3, 2⟩ ⟨0, 3, 7⟩) := by
  refine ⟨⟨by decide, ?_⟩, ⟨by decide, ?_⟩, ⟨by decide, ?_⟩⟩
  · exact addTimestamp_merge_props.1 [⟨0, 1, 1⟩] [⟨0, 2, 1⟩, ⟨1, 4, 1⟩] (by decide)
  · exact addTimestamp_merge_props.2.1 [⟨0, 1, 1⟩] [⟨0, 2, 1⟩, ⟨1, 4, 1⟩] 0 ⟨0, 1, 1⟩ (by decide)
  · exact addTimestamp_merge_props.2.2.2.1 ⟨0, 3, 7⟩ ⟨0, 3, 2⟩ (by decide)

/-- Claim C1 as frozen is false for the section-3 merge rule: a report with
a higher epochId but lower sequenceNumber does not win; the entry with the
higher sequenceNumber is kept. -/
theorem addTimestamp_higher_epoch_loses :
    List.foldl addTimestamp ([] : List TsVbuuid) [⟨0, 5, 1⟩, ⟨0, 3, 2⟩] = [⟨0, 5, 1⟩]
    ∧ (⟨0, 3, 2⟩ : TsVbuuid).epochId > (⟨0, 5, 1⟩ : TsVbuuid).epochId := by
  exact ⟨by decide, by decide⟩

/-! ### The TimestampKeeper aggregation loop (runTimestampKeeper)

The loop body of `IndexManager.runTimestampKeeper` is embedded as a step
function over an explicit state.  Each incoming timestamp is an event that
also records the environment's responses for this iteration: the wall
clock reading, whether `repo.SetStabilityTimestamps` would succeed, and
whether `marshallTimestampSerializable` would succeed.  The repository
write and the coordinator submission are recorded as effects. -/

/-- State of the aggregation loop: the debounce flag, the time of the last
successful persist (initialised to the loop start time), and the in-memory
merged collection. -/
structure KeeperState where
  persistTimestamp : Bool
  lastPersistTime : Nat
  timestamps : List TsVbuuid
deriving DecidableEq

/-- One incoming timestamp together with the environment outcomes of the
iteration that handles it. -/
structure TsReport where
  now : Nat
  report : TsVbuuid
  persistOK : Bool
  marshalOK : Bool
deriving DecidableEq

/-- Events the loop selects on: the stop channel, closure of the inbound
channel, or an incoming timestamp. -/
inductive KeeperEvent where
  | stopSignal : KeeperEvent
  | chanClosed : KeeperEvent
  | incoming : TsReport → KeeperEvent
deriving DecidableEq

/-- Observable side effects of one iteration: a repository write of the
merged collection with its outcome, or an OPCODE_NOTIFY_TIMESTAMP request
submitted through the coordinator carrying the marshalled timestamp. -/
inductive Effect where
  | persistAttempt : List TsVbuuid → Bool → Effect
  | notifyRequest : TsVbuuid → Effect
deriving DecidableEq

/-- Go unsigned 64-bit subtraction `a - b` on values below `2 ^ 64`. -/
def u64sub (a b : Nat) : Nat := (a + 2 ^ 64 - b) % 2 ^ 64

/-- Modelled from the spec: the repository error fallback of the loop
prologue creates a fresh empty collection
(`createTimestampListSerializable` is not under `src/`). -/
def createTimestampListSerializable : List TsVbuuid := []

/-- Loop prologue: `persistTimestamp := true` (save the first timestamp
always), `lastPersistTime := now`, and the collection loaded from the
repository, or a fresh one if that read failed. -/
def initKeeperState (t0 : Nat) (repoTs : Option (List TsVbuuid)) : KeeperState :=
  ⟨true, t0, match repoTs with
    | some ts => ts
    | none => createTimestampListSerializable⟩

/-- The body of the `case timestamp ... <-inboundch` branch of
`runTimestampKeeper`: merge the report, decide whether to persist, persist
with the debounce bookkeeping, then marshal the incoming timestamp and
submit it to the coordinator. -/
def keeperStep (interval : Nat) (s : KeeperState) (e : TsReport) : KeeperState × List Effect :=
  let newTimestamps := addTimestamp s.timestamps e.report
  let p := s.persistTimestamp || decide (u64sub e.now s.lastPersistTime > interval)
  let persistEffs : List Effect := if p then [Effect.persistAttempt newTimestamps e.persistOK] else []
  let newFlag := if p then (if e.persistOK then false else true) else p
  let newLast := if p && e.persistOK then e.now else s.lastPersistTime
  let effs := if e.marshalOK then persistEffs ++ [Effect.notifyRequest e.report] else persistEffs
  (⟨newFlag, newLast, newTimestamps⟩, effs)

/-- The `for/select` loop of `runTimestampKeeper`: a stop signal or a
closed inbound channel returns immediately; an incoming timestamp runs
`keeperStep` and continues.  The result pairs the final state with the
per-iteration effect records. -/
def runTimestampKeeper (interval : Nat) (s : KeeperState) :
    List KeeperEvent → KeeperState × List (KeeperEvent × List Effect)
  | [] => (s, [])
  | KeeperEvent.stopSignal :: _ => (s, [])
  | KeeperEvent.chanClosed :: _ => (s, [])
  | KeeperEvent.incoming e :: rest =>
    let out := keeperStep interval s e
    let outRest := runTimestampKeeper interval out.1 rest
    (outRest.1, (KeeperEvent.incoming e, out.2) :: outRest.2)

/-- `runTimestampKeeper` restricted to incoming timestamps only. -/
def runReports (interval : Nat) (s : KeeperState) :
    List TsReport → KeeperState × List (TsReport × List Effect)
  | [] => (s, [])
  | e :: rest =>
    let out := keeperStep interval s e
    let outRest := runReports interval out.1 rest
    (outRest.1, (e, out.2) :: outRest.2)

/-- Whether an iteration's effects include a repository write. -/
def attemptsPersist (effs : List Effect) : Bool :=
  effs.any fun x => match x with
    | Effect.persistAttempt _ _ => true
    | _ => false

/-- Whether an iteration's effects include a successful repository write. -/
def succeededStep (effs : List Effect) : Bool :=
  effs.any fun x => match x with
    | Effect.persistAttempt _ true => true
    | _ => false

/-- No iteration of the trace persisted successfully. -/
def noSuccessR (recs : List (TsReport × List Effect)) : Bool :=
  recs.all fun r => !succeededStep r.2

/-- The wall-clock time of the last successful persist in the trace, or
the loop start time if none succeeded. -/
def lastSuccessTimeR (t0 : Nat) (recs : List (TsReport × List Effect)) : Nat :=
  recs.foldl (fun acc r => if succeededStep r.2 then r.1.now else acc) t0

/-- The wall-clock time of the last event of the trace, or the loop start
time for an empty trace. -/
def lastNowR (t0 : Nat) (recs : List (TsReport × List Effect)) : Nat :=
  recs.foldl (fun _ r => r.1.now) t0

/-- The clock readings of a report list are at least `t0`, non-decreasing,
and below `2 ^ 64`. -/
def timesMonoR : Nat → List TsReport → Prop
  | _, [] => True
  | t0, e :: rest => t0 ≤ e.now ∧ e.now < 2 ^ 64 ∧ timesMonoR e.now rest

instance instDecTimesMonoR : (t0 : Nat) → (l : List TsReport) → Decidable (timesMonoR t0 l)
  | _, [] => Decidable.isTrue trivial
  | t0, e :: rest =>
    haveI := instDecTimesMonoR e.now rest
    inferInstanceAs (Decidable (t0 ≤ e.now ∧ e.now < 2 ^ 64 ∧ timesMonoR e.now rest))

theorem u64sub_eq_sub (a b : Nat) (h1 : b ≤ a) (h2 : a < 2 ^ 64) :
    u64sub a b = a - b := by
  have hp : (2 : Nat) ^ 64 = 18446744073709551616 := by norm_num
  unfold u64sub
  rw [hp] at h2 ⊢
  omega

theorem keeperStep_effects (interval : Nat) (s : KeeperState) (e : TsReport) :
    attemptsPersist (keeperStep interval s e).2
      = (s.persistTimestamp || decide (u64sub e.now s.lastPersistTime > interval))
    ∧ succeededStep (keeperStep interval s e).2
      = ((s.persistTimestamp || decide (u64sub e.now s.lastPersistTime > interval)) && e.persistOK)
    ∧ (keeperStep interval s e).1.persistTimestamp
      = ((s.persistTimestamp || decide (u64sub e.now s.lastPersistTime > interval)) && !e.persistOK)
    ∧ (keeperStep interval s e).1.lastPersistTime
      = (if (s.persistTimestamp || decide (u64sub e.now s.lastPersistTime > interval)) && e.persistOK
          then e.now else s.lastPersistTime) := by
  obtain ⟨n, r, po, mo⟩ := e
  cases hp : (s.persistTimestamp || decide (u64sub n s.lastPersistTime > interval)) <;>
    cases po <;> cases mo <;>
      simp_all [keeperStep, attemptsPersist, succeededStep]

theorem noSuccessR_lastSuccessTimeR (recs : List (TsReport × List Effect)) :
    ∀ t0, noSuccessR recs = true → lastSuccessTimeR t0 recs = t0 := by
  induction recs with
  | nil => intro t0 _; rfl
  | cons r rest ih =>
    intro t0 h
    simp only [noSuccessR, List.all_cons, Bool.and_eq_true, Bool.not_eq_true'] at h
    simp only [lastSuccessTimeR, List.foldl_cons, h.1, if_false]
    exact ih t0 (by simp [noSuccessR, h.2])

/-- Unfolding lemma: the time accumulator of `lastSuccessTimeR` over a cons. -/
theorem lastSuccessTimeR_cons (t0 : Nat) (x : TsReport × List Effect)
    (recs : List (TsReport × List Effect)) :
    lastSuccessTimeR t0 (x :: recs)
      = lastSuccessTimeR (if succeededStep x.2 then x.1.now else t0) recs := rfl

theorem noSuccessR_cons (x : TsReport × List Effect) (recs : List (TsReport × List Effect)) :
    noSuccessR (x :: recs) = (!succeededStep x.2 && noSuccessR recs) := rfl

theorem lastNowR_cons (t0 : Nat) (x : TsReport × List Effect)
    (recs : List (TsReport × List Effect)) :
    lastNowR t0 (x :: recs) = lastNowR x.1.now recs := rfl

theorem runReports_cons (interval : Nat) (s : KeeperState) (e : TsReport)
    (rest : List TsReport) :
    runReports interval s (e :: rest)
      = ((runReports interval (keeperStep interval s e).1 rest).1,
          (e, (keeperStep interval s e).2)
            :: (runReports interval (keeperStep interval s e).1 rest).2) := rfl

/-- Core invariant of the aggregation loop, under a monotone clock: the
state's `lastPersistTime` is the time of the last successful persist; the
debounce flag is set exactly when either no persist has succeeded (and it
was set to begin with) or more than `interval` has elapsed since the last
successful persist. -/
theorem runReports_inv (interval : Nat) (pre : List TsReport) :
    ∀ (s : KeeperState) (t0 : Nat),
      s.lastPersistTime ≤ t0 → t0 < 2 ^ 64 → timesMonoR t0 pre →
      (s.persistTimestamp = false → t0 - s.lastPersistTime ≤ interval) →
      ((runReports interval s pre).1.lastPersistTime
          = lastSuccessTimeR s.lastPersistTime (runReports interval s pre).2)
      ∧ (runReports interval s pre).1.lastPersistTime ≤ lastNowR t0 (runReports interval s pre).2
      ∧ t0 ≤ lastNowR t0 (runReports interval s pre).2
      ∧ lastNowR t0 (runReports interval s pre).2 < 2 ^ 64
      ∧ ((runReports interval s pre).1.persistTimestamp = true ↔
          (noSuccessR (runReports interval s pre).2 = true ∧ s.persistTimestamp = true)
            ∨ lastNowR t0 (runReports interval s pre).2
                - (runReports interval s pre).1.lastPersistTime > interval)
      ∧ ((runReports interval s pre).1.persistTimestamp = false →
          lastNowR t0 (runReports interval s pre).2
            - (runReports interval s pre).1.lastPersistTime ≤ interval) := by
  induction pre with
  | nil =>
    intro s t0 h1 h2 _ h4
    simp only [runReports, lastSuccessTimeR, lastNowR, noSuccessR, List.foldl_nil, List.all_nil]
    refine ⟨trivial, h1, le_refl _, h2, ?_, h4⟩
    constructor
    · intro hf; exact Or.inl ⟨trivial, hf⟩
    · rintro (⟨_, hf⟩ | hgt)
      · exact hf
      · cases hf2 : s.persistTimestamp
        · exact absurd (h4 hf2) (by omega)
        · rfl
  | cons e rest ih =>
    intro s t0 h1 h2 hm h4
    obtain ⟨hm1, hm2, hm3⟩ := hm
    obtain ⟨hA, hS, hF, hL⟩ := keeperStep_effects interval s e
    have hsl : s.lastPersistTime ≤ e.now := le_trans h1 hm1
    have hu : u64sub e.now s.lastPersistTime = e.now - s.lastPersistTime :=
      u64sub_eq_sub _ _ hsl hm2
    rw [hu] at hA hS hF hL
    rw [runReports_cons]
    by_cases hpb : (s.persistTimestamp || decide (e.now - s.lastPersistTime > interval)) = true
    · rw [hpb] at hS hF hL
      cases hok : e.persistOK with
      | true =>
        rw [hok] at hS hF hL
        have hSv : succeededStep (keeperStep interval s e).2 = true := by
          rw [hS]; rfl
        have hFv : (keeperStep interval s e).1.persistTimestamp = false := by
          rw [hF]; rfl
        have hLv : (keeperStep interval s e).1.lastPersistTime = e.now := by
          rw [hL]; rfl
        have hs1le : (keeperStep interval s e).1.lastPersistTime ≤ e.now := le_of_eq hLv
        have hs1flag : (keeperStep interval s e).1.persistTimestamp = false →
            e.now - (keeperStep interval s e).1.lastPersistTime ≤ interval := by
          intro _; rw [hLv]; omega
        obtain ⟨ih1, ih2, ih3, ih4, ih5, ih6⟩ :=
          ih (keeperStep interval s e).1 e.now hs1le hm2 hm3 hs1flag
        rw [hLv] at ih1
        refine ⟨?_, ?_, ?_, ?_, ?_, ?_⟩
        · rw [lastSuccessTimeR_cons, hSv]
          simpa using ih1
        · rw [lastNowR_cons]; exact ih2
        · rw [lastNowR_cons]; exact le_trans hm1 ih3
        · rw [lastNowR_cons]; exact ih4
        · rw [noSuccessR_cons, lastNowR_cons, hSv]
          simp only [Bool.not_true, Bool.false_and]
          constructor
          · intro hf
            rcases ih5.mp hf with ⟨_, hflag⟩ | hgt
            · rw [hFv] at hflag; exact Bool.noConfusion hflag
            · exact Or.inr hgt
          · rintro (⟨hfalse, _⟩ | hgt)
            · exact Bool.noConfusion hfalse
            · exact ih5.mpr (Or.inr hgt)
        · rw [lastNowR_cons]; exact ih6
      | false =>
        rw [hok] at hS hF hL
        have hSv : succeededStep (keeperStep interval s e).2 = false := by
          rw [hS]; rfl
        have hFv : (keeperStep interval s e).1.persistTimestamp = true := by
          rw [hF]; rfl
        have hLv : (keeperStep interval s e).1.lastPersistTime = s.lastPersistTime := by
          rw [hL]; rfl
        have hs1le : (keeperStep interval s e).1.lastPersistTime ≤ e.now := by
          rw [hLv]; exact hsl
        have hs1flag : (keeperStep interval s e).1.persistTimestamp = false →
            e.now - (keeperStep interval s e).1.lastPersistTime ≤ interval := by
          intro hcontra; rw [hFv] at hcontra; exact Bool.noConfusion hcontra
        obtain ⟨ih1, ih2, ih3, ih4, ih5, ih6⟩ :=
          ih (keeperStep interval s e).1 e.now hs1le hm2 hm3 hs1flag
        rw [hLv] at ih1
        refine ⟨?_, ?_, ?_, ?_, ?_, ?_⟩
        · rw [lastSuccessTimeR_cons, hSv]
          simpa using ih1
        · rw [lastNowR_cons]; exact ih2
        · rw [lastNowR_cons]; exact le_trans hm1 ih3
        · rw [lastNowR_cons]; exact ih4
        · rw [noSuccessR_cons, lastNowR_cons, hSv]
          simp only [Bool.not_false, Bool.true_and]
          rcases Bool.or_eq_true _ _ |>.mp hpb with hsp | hc
          · constructor
            · intro hf
              rcases ih5.mp hf with ⟨hns, _⟩ | hgt
              · exact Or.inl ⟨hns, hsp⟩
              · exact Or.inr hgt
            · rintro (⟨hns, _⟩ | hgt)
              · exact ih5.mpr (Or.inl ⟨hns, hFv⟩)
              · exact ih5.mpr (Or.inr hgt)
          · have hc' : e.now - s.lastPersistTime > interval := of_decide_eq_true hc
            constructor
            · intro hf
              rcases ih5.mp hf with ⟨hns, _⟩ | hgt
              · refine Or.inr ?_
                have hls := noSuccessR_lastSuccessTimeR _ s.lastPersistTime hns
                rw [ih1, hls]
                omega
              · exact Or.inr hgt
            · rintro (⟨hns, _⟩ | hgt)
              · exact ih5.mpr (Or.inl ⟨hns, hFv⟩)
              · exact ih5.mpr (Or.inr hgt)
        · rw [lastNowR_cons]; exact ih6
    · have hpb' : (s.persistTimestamp || decide (e.now - s.lastPersistTime > interval)) = false :=
        Bool.not_eq_true _ |>.mp hpb
      rw [hpb'] at hS hF hL
      have hsp : s.persistTimestamp = false := (Bool.or_eq_false_iff.mp hpb').1
      have hc' : ¬ e.now - s.lastPersistTime > interval :=
        of_decide_eq_false (Bool.or_eq_false_iff.mp hpb').2
      have hSv : succeededStep (keeperStep interval s e).2 = false := by
        rw [hS]; rfl
      have hFv : (keeperStep interval s e).1.persistTimestamp = false := by
        rw [hF]; rfl
      have hLv : (keeperStep interval s e).1.lastPersistTime = s.lastPersistTime := by
        rw [hL]; rfl
      have hs1le : (keeperStep interval s e).1.lastPersistTime ≤ e.now := by
        rw [hLv]; exact hsl
      have hs1flag : (keeperStep interval s e).1.persistTimestamp = false →
          e.now - (keeperStep interval s e).1.lastPersistTime ≤ interval := by
        intro _; rw [hLv]; omega
      obtain ⟨ih1, ih2, ih3, ih4, ih5, ih6⟩ :=
        ih (keeperStep interval s e).1 e.now hs1le hm2 hm3 hs1flag
      rw [hLv] at ih1
      refine ⟨?_, ?_, ?_, ?_, ?_, ?_⟩
      · rw [lastSuccessTimeR_cons, hSv]
        simpa using ih1
      · rw [lastNowR_cons]; exact ih2
      · rw [lastNowR_cons]; exact le_trans hm1 ih3
      · rw [lastNowR_cons]; exact ih4
      · rw [noSuccessR_cons, lastNowR_cons, hSv]
        simp only [Bool.not_false, Bool.true_and]
        constructor
        · intro hf
          rcases ih5.mp hf with ⟨_, hflag⟩ | hgt
          · rw [hFv] at hflag; exact Bool.noConfusion hflag
          · exact Or.inr hgt
        · rintro (⟨_, hflag⟩ | hgt)
          · rw [hsp] at hflag; exact Bool.noConfusion hflag
          · exact ih5.mpr (Or.inr hgt)
      · rw [lastNowR_cons]; exact ih6

theorem timesMonoR_append (l1 l2 : List TsReport) :
    ∀ t0, timesMonoR t0 (l1 ++ l2) ↔
      timesMonoR t0 l1 ∧ timesMonoR (l1.foldl (fun _ r => r.now) t0) l2 := by
  induction l1 with
  | nil => intro t0; simp [timesMonoR]
  | cons e rest ih =>
    intro t0
    simp only [List.cons_append, timesMonoR, List.foldl_cons, List.append_eq]
    rw [ih e.now]
    tauto

theorem lastNowR_runReports (interval : Nat) (pre : List TsReport) :
    ∀ (s : KeeperState) (t0 : Nat),
      lastNowR t0 (runReports interval s pre).2 = pre.foldl (fun _ r => r.now) t0 := by
  induction pre with
  | nil => intro s t0; rfl
  | cons e rest ih =>
    intro s t0
    rw [runReports_cons, lastNowR_cons]
    exact ih _ _

/-- Claim C2: the aggregation loop attempts a repository persist of the
merged collection on the very first incoming timestamp; on any incoming
timestamp it attempts a persist exactly when either no persist has yet
succeeded (covering both the very first timestamp and pending retries of
failed writes) or more than `timestampPersistInterval` nanoseconds have
elapsed since the last successful persist, under a monotone clock. -/
theorem runTimestampKeeper_debounce (interval t0 : Nat) (repoTs : Option (List TsVbuuid))
    (pre : List TsReport) (e : TsReport) (ht0 : t0 < 2 ^ 64)
    (hm : timesMonoR t0 (pre ++ [e])) :
    (pre = [] →
      attemptsPersist (keeperStep interval
        (runReports interval (initKeeperState t0 repoTs) pre).1 e).2 = true)
    ∧ (attemptsPersist (keeperStep interval
          (runReports interval (initKeeperState t0 repoTs) pre).1 e).2 = true ↔
        (noSuccessR (runReports interval (initKeeperState t0 repoTs) pre).2 = true
          ∨ e.now - lastSuccessTimeR t0
              (runReports interval (initKeeperState t0 repoTs) pre).2 > interval)) := by
  obtain ⟨hmpre, hme⟩ := (timesMonoR_append pre [e] t0).mp hm
  obtain ⟨hle, he64, -⟩ := hme
  have hinit : (initKeeperState t0 repoTs).lastPersistTime = t0 := rfl
  have hflag : (initKeeperState t0 repoTs).persistTimestamp = true := rfl
  obtain ⟨i1, i2, i3, i4, i5, i6⟩ :=
    runReports_inv interval pre (initKeeperState t0 repoTs) t0 (le_of_eq hinit) ht0 hmpre
      (by intro hc; rw [hflag] at hc; exact Bool.noConfusion hc)
  rw [hinit] at i1
  rw [lastNowR_runReports] at i2 i3 i4 i5 i6
  obtain ⟨hA, -, -, -⟩ := keeperStep_effects interval
    (runReports interval (initKeeperState t0 repoTs) pre).1 e
  have hsfle : (runReports interval (initKeeperState t0 repoTs) pre).1.lastPersistTime ≤ e.now :=
    le_trans i2 hle
  have hu : u64sub e.now (runReports interval (initKeeperState t0 repoTs) pre).1.lastPersistTime
      = e.now - (runReports interval (initKeeperState t0 repoTs) pre).1.lastPersistTime :=
    u64sub_eq_sub _ _ hsfle he64
  rw [hu] at hA
  constructor
  · intro hpre
    subst hpre
    rw [hA]
    rw [show (runReports interval (initKeeperState t0 repoTs) []).1
        = initKeeperState t0 repoTs from rfl, hflag]
    rfl
  · constructor
    · intro hatt
      rw [hA] at hatt
      rcases Bool.or_eq_true _ _ |>.mp hatt with hfl | hdec
      · rcases i5.mp hfl with ⟨hns, -⟩ | hgt
        · exact Or.inl hns
        · refine Or.inr ?_
          rw [← i1]
          omega
      · have := of_decide_eq_true hdec
        refine Or.inr ?_
        rw [← i1]
        omega
    · intro hcase
      rw [hA]
      rcases hcase with hns | hgt
      · have hfl : (runReports interval (initKeeperState t0 repoTs) pre).1.persistTimestamp = true :=
          i5.mpr (Or.inl ⟨hns, hflag⟩)
        rw [hfl]
        rfl
      · rw [← i1] at hgt
        have : decide (e.now - (runReports interval (initKeeperState t0 repoTs) pre).1.lastPersistTime
            > interval) = true := decide_eq_true hgt
        rw [this, Bool.or_true]

/-- Concrete instantiation of `runTimestampKeeper_debounce`: after one
successfully persisted timestamp at time 3, a timestamp at time 10 with a
5-nanosecond interval attempts a persist. -/
theorem runTimestampKeeper_debounce_witness :
    ((0 : Nat) < 2 ^ 64
      ∧ timesMonoR 0 ([⟨3, ⟨0, 1, 1⟩, true, true⟩] ++ [⟨10, ⟨0, 2, 1⟩, true, true⟩]))
    ∧ (([⟨3, ⟨0, 1, 1⟩, true, true⟩] : List TsReport) = [] →
        attemptsPersist (keeperStep 5
          (runReports 5 (initKeeperState 0 none) [⟨3, ⟨0, 1, 1⟩, true, true⟩]).1
          ⟨10, ⟨0, 2, 1⟩, true, true⟩).2 = true)
    ∧ (attemptsPersist (keeperStep 5
          (runReports 5 (initKeeperState 0 none) [⟨3, ⟨0, 1, 1⟩, true, true⟩]).1
          ⟨10, ⟨0, 2, 1⟩, true, true⟩).2 = true ↔
        (noSuccessR (runReports 5 (initKeeperState 0 none) [⟨3, ⟨0, 1, 1⟩, true, true⟩]).2 = true
          ∨ (10 : Nat) - lastSuccessTimeR 0
              (runReports 5 (initKeeperState 0 none) [⟨3, ⟨0, 1, 1⟩, true, true⟩]).2 > 5)) := by
  refine ⟨⟨by decide, by decide⟩, ?_⟩
  exact runTimestampKeeper_debounce 5 0 none [⟨3, ⟨0, 1, 1⟩, true, true⟩]
    ⟨10, ⟨0, 2, 1⟩, true, true⟩ (by decide) (by decide)

/-- Selects the coordinator-submission effects of an iteration. -/
def isNotifyEff : Effect → Bool
  | Effect.notifyRequest _ => true
  | _ => false

/-- Claim C3 (amended): the loop submits exactly one OPCODE_NOTIFY_TIMESTAMP
request per handled timestamp whenever marshalling the incoming timestamp
succeeds - regardless of whether the repository persist in that iteration
was attempted or succeeded - and the request carries the incoming
timestamp, not the merged collection. -/
theorem keeperStep_notify_iff_marshal (interval : Nat) (s : KeeperState) (e : TsReport) :
    (keeperStep interval s e).2.filter isNotifyEff
      = (if e.marshalOK = true then [Effect.notifyRequest e.report] else []) := by
  obtain ⟨n, r, po, mo⟩ := e
  cases hp : (s.persistTimestamp || decide (u64sub n s.lastPersistTime > interval)) <;>
    cases po <;> cases mo <;>
      simp_all [keeperStep, isNotifyEff]

/-- Claim C3 as frozen is false: in an iteration whose repository persist
is attempted and fails while marshalling succeeds, the
OPCODE_NOTIFY_TIMESTAMP request is still submitted. -/
theorem keeperStep_notify_despite_persist_failure :
    Effect.notifyRequest ⟨0, 1, 1⟩ ∈
        (keeperStep 100 ⟨true, 0, []⟩ ⟨10, ⟨0, 1, 1⟩, false, true⟩).2
    ∧ attemptsPersist (keeperStep 100 ⟨true, 0, []⟩ ⟨10, ⟨0, 1, 1⟩, false, true⟩).2 = true
    ∧ succeededStep (keeperStep 100 ⟨true, 0, []⟩ ⟨10, ⟨0, 1, 1⟩, false, true⟩).2 = false := by
  exact ⟨by decide, by decide, by decide⟩

/-- Claim C7: when the repository write fails in an iteration, the loop
keeps running (the next events are still processed and no error value is
produced), `lastPersistTime` is unchanged, the pending-persist flag equals
the fact that a persist was attempted - so a failed attempt leaves it set
and the next incoming timestamp retries the persist - and in general
`lastPersistTime` advances only on a successful persist. -/
theorem persist_failure_nonfatal (interval : Nat) (s s2 : KeeperState)
    (e e2 e3 : TsReport) (evs : List KeeperEvent) (h : e.persistOK = false) :
    (keeperStep interval s e).1.lastPersistTime = s.lastPersistTime
    ∧ (keeperStep interval s e).1.persistTimestamp = attemptsPersist (keeperStep interval s e).2
    ∧ (attemptsPersist (keeperStep interval s e).2 = true →
        attemptsPersist (keeperStep interval (keeperStep interval s e).1 e2).2 = true)
    ∧ runTimestampKeeper interval s (KeeperEvent.incoming e :: evs)
        = ((runTimestampKeeper interval (keeperStep interval s e).1 evs).1,
            (KeeperEvent.incoming e, (keeperStep interval s e).2)
              :: (runTimestampKeeper interval (keeperStep interval s e).1 evs).2)
    ∧ ((keeperStep interval s2 e3).1.lastPersistTime ≠ s2.lastPersistTime →
        succeededStep (keeperStep interval s2 e3).2 = true) := by
  obtain ⟨hA, hS, hF, hL⟩ := keeperStep_effects interval s e
  obtain ⟨hA3, hS3, hF3, hL3⟩ := keeperStep_effects interval s2 e3
  obtain ⟨hA2, -, -, -⟩ := keeperStep_effects interval (keeperStep interval s e).1 e2
  rw [h] at hS hF hL
  refine ⟨?_, ?_, ?_, rfl, ?_⟩
  · rw [hL]; simp
  · rw [hF, hA]; simp
  · intro hatt
    rw [hA] at hatt
    rw [hA2, hF]
    simp [hatt]
  · intro hne
    rw [hL3] at hne
    rw [hS3]
    cases hcond : ((s2.persistTimestamp || decide (u64sub e3.now s2.lastPersistTime > interval))
        && e3.persistOK) with
    | true => rfl
    | false => rw [hcond] at hne; simp at hne

/-- Concrete instantiation of `persist_failure_nonfatal` at a failing
persist. -/
theorem persist_failure_nonfatal_witness :
    (⟨10, ⟨0, 1, 1⟩, false, true⟩ : TsReport).persistOK = false
    ∧ ((keeperStep 5 ⟨true, 0, []⟩ ⟨10, ⟨0, 1, 1⟩, false, true⟩).1.lastPersistTime
        = (⟨true, 0, []⟩ : KeeperState).lastPersistTime
      ∧ (keeperStep 5 ⟨true, 0, []⟩ ⟨10, ⟨0, 1, 1⟩, false, true⟩).1.persistTimestamp
          = attemptsPersist (keeperStep 5 ⟨true, 0, []⟩ ⟨10, ⟨0, 1, 1⟩, false, true⟩).2
      ∧ (attemptsPersist (keeperStep 5 ⟨true, 0, []⟩ ⟨10, ⟨0, 1, 1⟩, false, true⟩).2 = true →
          attemptsPersist (keeperStep 5
            (keeperStep 5 ⟨true, 0, []⟩ ⟨10, ⟨0, 1, 1⟩, false, true⟩).1
            ⟨11, ⟨0, 1, 1⟩, true, true⟩).2 = true)
      ∧ runTimestampKeeper 5 ⟨true, 0, []⟩
            (KeeperEvent.incoming ⟨10, ⟨0, 1, 1⟩, false, true⟩ :: [])
          = ((runTimestampKeeper 5
                (keeperStep 5 ⟨true, 0, []⟩ ⟨10, ⟨0, 1, 1⟩, false, true⟩).1 []).1,
              (KeeperEvent.incoming ⟨10, ⟨0, 1, 1⟩, false, true⟩,
                  (keeperStep 5 ⟨true, 0, []⟩ ⟨10, ⟨0, 1, 1⟩, false, true⟩).2)
                :: (runTimestampKeeper 5
                    (keeperStep 5 ⟨true, 0, []⟩ ⟨10, ⟨0, 1, 1⟩, false, true⟩).1 []).2)
      ∧ ((keeperStep 5 (⟨false, 7, []⟩ : KeeperState) ⟨20, ⟨1, 2, 3⟩, true, true⟩).1.lastPersistTime
            ≠ (⟨false, 7, []⟩ : KeeperState).lastPersistTime →
          succeededStep (keeperStep 5 (⟨false, 7, []⟩ : KeeperState)
            ⟨20, ⟨1, 2, 3⟩, true, true⟩).2 = true)) := by
  refine ⟨by decide, ?_⟩
  exact persist_failure_nonfatal 5 ⟨true, 0, []⟩ ⟨false, 7, []⟩ ⟨10, ⟨0, 1, 1⟩, false, true⟩
    ⟨11, ⟨0, 1, 1⟩, true, true⟩ ⟨20, ⟨1, 2, 3⟩, true, true⟩ [] (by decide)

/-! ### The IndexManager record, its lifecycle and channel operations -/

/-- Modelled from the spec: the per-stream notify channels are bounded;
the constant `TIMESTAMP_NOTIFY_CH_SIZE` is declared outside `src/`, so a
fixed positive bound is used here - no proof depends on its value. -/
def TIMESTAMP_NOTIFY_CH_SIZE : Nat := 10

/-- Modelled from the spec: the default persistence interval; the constant
`TIMESTAMP_PERSIST_INTERVAL` is declared outside `src/` - no proof depends
on its value. -/
def TIMESTAMP_PERSIST_INTERVAL : Nat := 1000000000

/-- A buffered Go channel of timestamps: identity, capacity and current
buffer content. -/
structure ChanRef where
  chanId : Nat
  capacity : Nat
  buffer : List (List TsVbuuid)
deriving DecidableEq

/-- Association-list lookup (a Go map read). -/
def lookupA {α : Type} : List (Nat × α) → Nat → Option α
  | [], _ => none
  | (k, v) :: rest, key => if k = key then some v else lookupA rest key

/-- Association list update of the first binding of a key (a Go map write
of a present key). -/
def updateA {α : Type} : List (Nat × α) → Nat → α → List (Nat × α)
  | [], _, _ => []
  | (k, v) :: rest, key, nv =>
    if k = key then (k, nv) :: rest else (k, v) :: updateA rest key nv

/-- The `IndexManager` struct.  `Option` fields model nil-able pointers,
fresh objects are identified by `nextId`, and the closed/stopped lists
record the Close, stopAll and close-channel calls issued to
collaborators. -/
structure IndexManagerS where
  streamMgr : Option Nat
  timer : Option Nat
  timekeeperStopCh : Option Nat
  timestampCh : List (Nat × ChanRef)
  timestampPersistInterval : Nat
  isClosed : Bool
  nextId : Nat
  closedChannels : List Nat
  streamMgrsClosed : List Nat
  timersStopped : List Nat
  repoPresent : Bool
  repoClosed : Bool
  coordPresent : Bool
  coordTerminated : Bool
  eventMgrPresent : Bool
  eventMgrClosed : Bool
  reqHandlerPresent : Bool
  reqHandlerClosed : Bool
deriving DecidableEq

/-- `IndexManager.GetStabilityTimestampChannel`: look the stream up in the
map; on a miss allocate a channel of capacity `TIMESTAMP_NOTIFY_CH_SIZE`,
store and return it. -/
def GetStabilityTimestampChannel (m : IndexManagerS) (streamId : Nat) :
    ChanRef × IndexManagerS :=
  match lookupA m.timestampCh streamId with
  | some ch => (ch, m)
  | none =>
    (⟨m.nextId, TIMESTAMP_NOTIFY_CH_SIZE, []⟩,
      { m with
          timestampCh := m.timestampCh ++ [(streamId, ⟨m.nextId, TIMESTAMP_NOTIFY_CH_SIZE, []⟩)],
          nextId := m.nextId + 1 })

/-- `IndexManager.stopMasterServiceNoLock`: close the stream manager if
present; stop the timer if present, and in that case also close the
timekeeper stop channel if present. -/
def stopMasterServiceNoLock (m : IndexManagerS) : IndexManagerS :=
  let m1 :=
    match m.streamMgr with
    | some sid => { m with streamMgr := none, streamMgrsClosed := m.streamMgrsClosed ++ [sid] }
    | none => m
  match m1.timer with
  | some tid =>
    let m2 := { m1 with timer := none, timersStopped := m1.timersStopped ++ [tid] }
    match m2.timekeeperStopCh with
    | some cid =>
      { m2 with timekeeperStopCh := none, closedChannels := m2.closedChannels ++ [cid] }
    | none => m2
  | none => m1

/-- `IndexManager.stopMasterService` takes the mutex and delegates; the
mutex is not modelled. -/
def stopMasterService (m : IndexManagerS) : IndexManagerS :=
  stopMasterServiceNoLock m

def IsClose (m : IndexManagerS) : Bool := m.isClosed

/-- `IndexManager.Close`: return immediately when already closed;
otherwise stop the master services, close the repository, terminate the
coordinator, close the event manager and the request handler (each only
if present), and mark the manager closed. -/
def Close (m : IndexManagerS) : IndexManagerS :=
  if m.isClosed then m
  else
    let m1 := stopMasterServiceNoLock m
    let m2 := if m1.repoPresent then { m1 with repoClosed := true } else m1
    let m3 := if m2.coordPresent then { m2 with coordTerminated := true } else m2
    let m4 := if m3.eventMgrPresent then { m3 with eventMgrClosed := true } else m3
    let m5 := if m4.reqHandlerPresent then { m4 with reqHandlerClosed := true } else m4
    { m5 with isClosed := true }

/-- `IndexManager.startMasterService`: reset the persistence interval to
the default, allocate the timer and the timekeeper stop channel, start the
keeper, then build the stream manager - which may fail, returning the
error before `streamMgr` is assigned. -/
def startMasterService (m : IndexManagerS) (newStreamMgrOK : Bool) : IndexManagerS × Bool :=
  let m1 := { m with
    timestampPersistInterval := TIMESTAMP_PERSIST_INTERVAL,
    timer := some m.nextId,
    timekeeperStopCh := some (m.nextId + 1),
    nextId := m.nextId + 2 }
  if newStreamMgrOK then
    ({ m1 with streamMgr := some m1.nextId, nextId := m1.nextId + 1 }, true)
  else (m1, false)

def SetTimestampPersistenceInterval (m : IndexManagerS) (elapsed : Nat) : IndexManagerS :=
  { m with timestampPersistInterval := elapsed }

/-- The wrapper received by `notifyNewTimestamp`: a stream id and the
marshalled timestamp bytes, modelled as the value they decode to, or
`none` for bytes that fail to unmarshal. -/
structure timestampSerializable where
  StreamId : Nat
  Timestamp : Option (List TsVbuuid)
deriving DecidableEq

/-- Modelled from the spec: serialization is opaque; unmarshalling either
recovers the timestamp or fails (`unmarshallTimestamp` is outside
`src/`). -/
def unmarshallTimestamp (data : Option (List TsVbuuid)) : Option (List TsVbuuid) := data

/-- `IndexManager.notifyNewTimestamp`: drop the timestamp when
unmarshalling fails or no channel is registered for the stream; enqueue it
only when the channel's current length is strictly below
`TIMESTAMP_NOTIFY_CH_SIZE`, else drop it.  No branch reports an error. -/
def notifyNewTimestamp (m : IndexManagerS) (w : timestampSerializable) : IndexManagerS :=
  match unmarshallTimestamp w.Timestamp with
  | none => m
  | some ts =>
    match lookupA m.timestampCh w.StreamId with
    | none => m
    | some ch =>
      if ch.buffer.length < TIMESTAMP_NOTIFY_CH_SIZE then
        { m with
            timestampCh := updateA m.timestampCh w.StreamId
              ⟨ch.chanId, ch.capacity, ch.buffer ++ [ts]⟩ }
      else m

/-- Error values produced by the DDL handlers: the marshalling error
returned verbatim, or the ERROR_MGR_DDL_CREATE_IDX and
ERROR_MGR_DDL_DROP_IDX manager errors. -/
inductive MgrErr where
  | marshalFailed : MgrErr
  | ddlCreateFailed : MgrErr
  | ddlDropFailed : MgrErr
deriving DecidableEq

/-- `IndexManager.HandleCreateIndexDDL`: marshal the definition (its
outcome modelled as an `Option` of the marshalled content), then submit
via `Coordinator.NewRequest` whose boolean acknowledgement is threaded
in. -/
def HandleCreateIndexDDL (marshalled : Option (List Nat)) (requestAcked : Bool) : Option MgrErr :=
  match marshalled with
  | none => some MgrErr.marshalFailed
  | some _ => if requestAcked then none else some MgrErr.ddlCreateFailed

/-- `IndexManager.HandleDeleteIndexDDL`: no marshalling; submit via
`Coordinator.NewRequest`. -/
def HandleDeleteIndexDDL (requestAcked : Bool) : Option MgrErr :=
  if requestAcked then none else some MgrErr.ddlDropFailed

/-- Claim C4: the DDL handlers return nil exactly when
`Coordinator.NewRequest` acknowledged a majority-committed application;
every other case - including a marshalling failure before any request is
submitted - returns a non-nil error. -/
theorem handleDDL_nil_iff_acked (marshalled : Option (List Nat)) (r : Bool) :
    (HandleCreateIndexDDL marshalled r = none ↔ (marshalled.isSome = true ∧ r = true))
    ∧ (HandleDeleteIndexDDL r = none ↔ r = true) := by
  constructor
  · cases marshalled <;> cases r <;> simp [HandleCreateIndexDDL]
  · cases r <;> simp [HandleDeleteIndexDDL]

/-- Claim C5: stopping the master services closes the stream manager,
stops the timer and closes the timekeeper stop channel, leaving all three
fields nil; and on the stop signal the aggregation loop returns at once,
with no further repository write - unpersisted in-memory state is simply
discarded. -/
theorem stopMasterService_clears (m : IndexManagerS) (a b c : Nat)
    (h1 : m.streamMgr = some a) (h2 : m.timer = some b) (h3 : m.timekeeperStopCh = some c) :
    (stopMasterService m).streamMgr = none
    ∧ (stopMasterService m).timer = none
    ∧ (stopMasterService m).timekeeperStopCh = none
    ∧ a ∈ (stopMasterService m).streamMgrsClosed
    ∧ b ∈ (stopMasterService m).timersStopped
    ∧ c ∈ (stopMasterService m).closedChannels
    ∧ (∀ (interval : Nat) (s : KeeperState) (evs : List KeeperEvent),
        runTimestampKeeper interval s (KeeperEvent.stopSignal :: evs) = (s, [])) := by
  refine ⟨?_, ?_, ?_, ?_, ?_, ?_, fun _ _ _ => rfl⟩ <;>
    simp [stopMasterService, stopMasterServiceNoLock, h1, h2, h3]

theorem lookupA_updateA {α : Type} (l : List (Nat × α)) (key : Nat) (nv : α) :
    ∀ v0, lookupA l key = some v0 → lookupA (updateA l key nv) key = some nv := by
  induction l with
  | nil => intro v0 h; exact Option.noConfusion h
  | cons kv rest ih =>
    intro v0 h
    obtain ⟨k, v⟩ := kv
    simp only [lookupA, updateA] at h ⊢
    by_cases hk : k = key
    · simp [hk, lookupA]
    · rw [if_neg hk] at h
      rw [if_neg hk]
      simp only [lookupA, if_neg hk]
      exact ih v0 h

theorem lookupA_append_self {α : Type} (l : List (Nat × α)) (key : Nat) (v : α) :
    lookupA l key = none → lookupA (l ++ [(key, v)]) key = some v := by
  induction l with
  | nil => intro _; simp [lookupA]
  | cons kv rest ih =>
    intro h
    obtain ⟨k, w⟩ := kv
    simp only [lookupA] at h
    by_cases hk : k = key
    · rw [if_pos hk] at h; exact Option.noConfusion h
    · rw [if_neg hk] at h
      simp only [List.cons_append, lookupA, if_neg hk]
      exact ih h

/-- Claim C6: `notifyNewTimestamp` never blocks: when unmarshalling fails,
when no channel is registered for the stream, or when the registered
channel already holds `TIMESTAMP_NOTIFY_CH_SIZE` items, the timestamp is
dropped and the state is returned unchanged, with no error; the timestamp
is enqueued only when a channel is registered and strictly below
capacity. -/
theorem notifyNewTimestamp_nonblocking (m : IndexManagerS) (w : timestampSerializable) :
    (unmarshallTimestamp w.Timestamp = none → notifyNewTimestamp m w = m)
    ∧ (lookupA m.timestampCh w.StreamId = none → notifyNewTimestamp m w = m)
    ∧ (∀ ts ch, unmarshallTimestamp w.Timestamp = some ts →
        lookupA m.timestampCh w.StreamId = some ch →
        TIMESTAMP_NOTIFY_CH_SIZE ≤ ch.buffer.length → notifyNewTimestamp m w = m)
    ∧ (∀ ts ch, unmarshallTimestamp w.Timestamp = some ts →
        lookupA m.timestampCh w.StreamId = some ch →
        ch.buffer.length < TIMESTAMP_NOTIFY_CH_SIZE →
        lookupA (notifyNewTimestamp m w).timestampCh w.StreamId
          = some ⟨ch.chanId, ch.capacity, ch.buffer ++ [ts]⟩) := by
  refine ⟨?_, ?_, ?_, ?_⟩
  · intro h
    simp [notifyNewTimestamp, h]
  · intro h
    cases hu : unmarshallTimestamp w.Timestamp with
    | none => simp [notifyNewTimestamp, hu]
    | some ts => simp [notifyNewTimestamp, hu, h]
  · intro ts ch hu hl hfull
    have hnlt : ¬ ch.buffer.length < TIMESTAMP_NOTIFY_CH_SIZE := by omega
    simp [notifyNewTimestamp, hu, hl, hnlt]
  · intro ts ch hu hl hlt
    simp only [notifyNewTimestamp, hu, hl]
    rw [if_pos hlt]
    exact lookupA_updateA m.timestampCh w.StreamId _ ch hl

theorem GetStabilityTimestampChannel_found (m : IndexManagerS) (streamId : Nat) (ch : ChanRef)
    (h : lookupA m.timestampCh streamId = some ch) :
    GetStabilityTimestampChannel m streamId = (ch, m) := by
  unfold GetStabilityTimestampChannel
  rw [h]

theorem GetStabilityTimestampChannel_new (m : IndexManagerS) (streamId : Nat)
    (h : lookupA m.timestampCh streamId = none) :
    GetStabilityTimestampChannel m streamId
      = (⟨m.nextId, TIMESTAMP_NOTIFY_CH_SIZE, []⟩,
          { m with
              timestampCh := m.timestampCh
                ++ [(streamId, ⟨m.nextId, TIMESTAMP_NOTIFY_CH_SIZE, []⟩)],
              nextId := m.nextId + 1 }) := by
  unfold GetStabilityTimestampChannel
  rw [h]

/-- Claim C8: `GetStabilityTimestampChannel` is idempotent per stream: the
first call on an unknown stream creates and stores a channel of capacity
`TIMESTAMP_NOTIFY_CH_SIZE`; any call on a known stream returns the stored
channel with the state unchanged; in particular an immediate second call
returns the same channel and does not create a new one. -/
theorem GetStabilityTimestampChannel_idem (m : IndexManagerS) (streamId : Nat) :
    (lookupA m.timestampCh streamId = none →
      (GetStabilityTimestampChannel m streamId).1.capacity = TIMESTAMP_NOTIFY_CH_SIZE
      ∧ lookupA (GetStabilityTimestampChannel m streamId).2.timestampCh streamId
          = some (GetStabilityTimestampChannel m streamId).1)
    ∧ (∀ ch, lookupA m.timestampCh streamId = some ch →
        GetStabilityTimestampChannel m streamId = (ch, m))
    ∧ GetStabilityTimestampChannel (GetStabilityTimestampChannel m streamId).2 streamId
        = ((GetStabilityTimestampChannel m streamId).1,
            (GetStabilityTimestampChannel m streamId).2) := by
  refine ⟨?_, ?_, ?_⟩
  · intro h
    rw [GetStabilityTimestampChannel_new m streamId h]
    exact ⟨rfl, lookupA_append_self m.timestampCh streamId _ h⟩
  · intro ch h
    exact GetStabilityTimestampChannel_found m streamId ch h
  · cases hl : lookupA m.timestampCh streamId with
    | some ch =>
      rw [GetStabilityTimestampChannel_found m streamId ch hl]
      exact GetStabilityTimestampChannel_found m streamId ch hl
    | none =>
      rw [GetStabilityTimestampChannel_new m streamId hl]
      exact GetStabilityTimestampChannel_found _ streamId _
        (lookupA_append_self m.timestampCh streamId _ hl)

theorem stopMasterServiceNoLock_fields (m : IndexManagerS) :
    (stopMasterServiceNoLock m).streamMgr = none
    ∧ (stopMasterServiceNoLock m).timer = none
    ∧ ((m.timer = none → m.timekeeperStopCh = none) →
        (stopMasterServiceNoLock m).timekeeperStopCh = none)
    ∧ (stopMasterServiceNoLock m).isClosed = m.isClosed
    ∧ (stopMasterServiceNoLock m).repoPresent = m.repoPresent
    ∧ (stopMasterServiceNoLock m).repoClosed = m.repoClosed
    ∧ (stopMasterServiceNoLock m).coordPresent = m.coordPresent
    ∧ (stopMasterServiceNoLock m).coordTerminated = m.coordTerminated
    ∧ (stopMasterServiceNoLock m).eventMgrPresent = m.eventMgrPresent
    ∧ (stopMasterServiceNoLock m).eventMgrClosed = m.eventMgrClosed
    ∧ (stopMasterServiceNoLock m).reqHandlerPresent = m.reqHandlerPresent
    ∧ (stopMasterServiceNoLock m).reqHandlerClosed = m.reqHandlerClosed := by
  cases hsm : m.streamMgr <;> cases ht : m.timer <;> cases hc : m.timekeeperStopCh <;>
    simp_all [stopMasterServiceNoLock]

set_option maxHeartbeats 1000000 in
theorem Close_fields (m : IndexManagerS) (hne : m.isClosed = false) :
    (Close m).streamMgr = (stopMasterServiceNoLock m).streamMgr
    ∧ (Close m).timer = (stopMasterServiceNoLock m).timer
    ∧ (Close m).timekeeperStopCh = (stopMasterServiceNoLock m).timekeeperStopCh
    ∧ ((stopMasterServiceNoLock m).repoPresent = true → (Close m).repoClosed = true)
    ∧ ((stopMasterServiceNoLock m).coordPresent = true → (Close m).coordTerminated = true)
    ∧ ((stopMasterServiceNoLock m).eventMgrPresent = true → (Close m).eventMgrClosed = true)
    ∧ ((stopMasterServiceNoLock m).reqHandlerPresent = true → (Close m).reqHandlerClosed = true)
    ∧ (Close m).isClosed = true := by
  have hne' : ¬ m.isClosed = true := by rw [hne]; exact Bool.noConfusion
  cases h1 : (stopMasterServiceNoLock m).repoPresent <;>
    cases h2 : (stopMasterServiceNoLock m).coordPresent <;>
      cases h3 : (stopMasterServiceNoLock m).eventMgrPresent <;>
        cases h4 : (stopMasterServiceNoLock m).reqHandlerPresent <;>
          simp [Close, if_neg hne', h1, h2, h3, h4]

/-- Claim C9: `Close` is idempotent: the first call stops the master
services and closes the repository, coordinator, event manager and
request handler (those that are present) and sets the closed flag; a call
on a closed manager returns it unchanged; `IsClose` reports true after
any `Close`. -/
theorem Close_idem (m : IndexManagerS)
    (hwf : m.timer = none → m.timekeeperStopCh = none) :
    IsClose (Close m) = true
    ∧ (m.isClosed = true → Close m = m)
    ∧ Close (Close m) = Close m
    ∧ (m.isClosed = false →
        (Close m).streamMgr = none ∧ (Close m).timer = none
        ∧ (Close m).timekeeperStopCh = none
        ∧ (m.repoPresent = true → (Close m).repoClosed = true)
        ∧ (m.coordPresent = true → (Close m).coordTerminated = true)
        ∧ (m.eventMgrPresent = true → (Close m).eventMgrClosed = true)
        ∧ (m.reqHandlerPresent = true → (Close m).reqHandlerClosed = true)) := by
  obtain ⟨hsm, hti, hsc, hicl, hrp, hrc, hcp, hct, hep, hec, hqp, hqc⟩ :=
    stopMasterServiceNoLock_fields m
  have hclosed_of : ∀ x : IndexManagerS, x.isClosed = true → Close x = x := by
    intro x hx
    simp [Close, hx]
  cases hcl : m.isClosed with
  | true =>
    have h1 : Close m = m := hclosed_of m hcl
    refine ⟨?_, fun _ => h1, ?_, ?_⟩
    · rw [h1]; exact hcl
    · rw [h1, h1]
    · intro hfalse
      exact Bool.noConfusion hfalse
  | false =>
    obtain ⟨f1, f2, f3, f4, f5, f6, f7, f8⟩ := Close_fields m hcl
    refine ⟨f8, ?_, hclosed_of (Close m) f8, ?_⟩
    · intro hcontra
      exact Bool.noConfusion hcontra
    · intro _
      refine ⟨f1.trans hsm, f2.trans hti, f3.trans (hsc hwf), ?_, ?_, ?_, ?_⟩
      · intro hpres; exact f4 (hrp.trans hpres)
      · intro hpres; exact f5 (hcp.trans hpres)
      · intro hpres; exact f6 (hep.trans hpres)
      · intro hpres; exact f7 (hqp.trans hpres)

/-- Claim C10: `startMasterService` unconditionally resets the
persistence interval to `TIMESTAMP_PERSIST_INTERVAL`, overwriting any
value previously configured by `SetTimestampPersistenceInterval`; a value
set after the transition persists. -/
theorem startMasterService_resets_interval (m : IndexManagerS) (v : Nat) (ok : Bool) :
    (startMasterService (SetTimestampPersistenceInterval m v) ok).1.timestampPersistInterval
        = TIMESTAMP_PERSIST_INTERVAL
    ∧ (SetTimestampPersistenceInterval (startMasterService m ok).1 v).timestampPersistInterval
        = v := by
  cases ok <;> simp [startMasterService, SetTimestampPersistenceInterval]

/-- A concrete manager state with active master services, used by the
concrete instantiations below. -/
def mgrSample : IndexManagerS where
  streamMgr := some 1
  timer := some 2
  timekeeperStopCh := some 3
  timestampCh := [(1, ⟨5, TIMESTAMP_NOTIFY_CH_SIZE, []⟩)]
  timestampPersistInterval := 0
  isClosed := false
  nextId := 10
  closedChannels := []
  streamMgrsClosed := []
  timersStopped := []
  repoPresent := true
  repoClosed := false
  coordPresent := true
  coordTerminated := false
  eventMgrPresent := true
  eventMgrClosed := false
  reqHandlerPresent := true
  reqHandlerClosed := false

/-- Concrete instantiation of `stopMasterService_clears`. -/
theorem stopMasterService_clears_witness :
    (mgrSample.streamMgr = some 1 ∧ mgrSample.timer = some 2
      ∧ mgrSample.timekeeperStopCh = some 3)
    ∧ ((stopMasterService mgrSample).streamMgr = none
      ∧ (stopMasterService mgrSample).timer = none
      ∧ (stopMasterService mgrSample).timekeeperStopCh = none
      ∧ 1 ∈ (stopMasterService mgrSample).streamMgrsClosed
      ∧ 2 ∈ (stopMasterService mgrSample).timersStopped
      ∧ 3 ∈ (stopMasterService mgrSample).closedChannels
      ∧ (∀ (interval : Nat) (s : KeeperState) (evs : List KeeperEvent),
          runTimestampKeeper interval s (KeeperEvent.stopSignal :: evs) = (s, []))) := by
  refine ⟨⟨by decide, by decide, by decide⟩, ?_⟩
  exact stopMasterService_clears mgrSample 1 2 3 (by decide) (by decide) (by decide)

/-- Concrete instantiation of `notifyNewTimestamp_nonblocking`: a
registered, non-full channel receives the unmarshalled timestamp. -/
theorem notifyNewTimestamp_nonblocking_witness :
    unmarshallTimestamp (timestampSerializable.mk 1 (some [⟨0, 1, 1⟩])).Timestamp
        = some [⟨0, 1, 1⟩]
    ∧ lookupA mgrSample.timestampCh 1 = some ⟨5, TIMESTAMP_NOTIFY_CH_SIZE, []⟩
    ∧ ([] : List (List TsVbuuid)).length < TIMESTAMP_NOTIFY_CH_SIZE
    ∧ lookupA (notifyNewTimestamp mgrSample ⟨1, some [⟨0, 1, 1⟩]⟩).timestampCh 1
        = some ⟨5, TIMESTAMP_NOTIFY_CH_SIZE, [] ++ [[⟨0, 1, 1⟩]]⟩ := by
  refine ⟨by decide, by decide, by decide, ?_⟩
  exact (notifyNewTimestamp_nonblocking mgrSample ⟨1, some [⟨0, 1, 1⟩]⟩).2.2.2
    [⟨0, 1, 1⟩] ⟨5, TIMESTAMP_NOTIFY_CH_SIZE, []⟩ (by decide) (by decide) (by decide)

/-- Concrete instantiation of `GetStabilityTimestampChannel_idem` on a
stream with no registered channel. -/
theorem GetStabilityTimestampChannel_idem_witness :
    lookupA mgrSample.timestampCh 2 = none
    ∧ ((lookupA mgrSample.timestampCh 2 = none →
        (GetStabilityTimestampChannel mgrSample 2).1.capacity = TIMESTAMP_NOTIFY_CH_SIZE
        ∧ lookupA (GetStabilityTimestampChannel mgrSample 2).2.timestampCh 2
            = some (GetStabilityTimestampChannel mgrSample 2).1)
      ∧ (∀ ch, lookupA mgrSample.timestampCh 2 = some ch →
          GetStabilityTimestampChannel mgrSample 2 = (ch, mgrSample))
      ∧ GetStabilityTimestampChannel (GetStabilityTimestampChannel mgrSample 2).2 2
          = ((GetStabilityTimestampChannel mgrSample 2).1,
              (GetStabilityTimestampChannel mgrSample 2).2)) := by
  exact ⟨by decide, GetStabilityTimestampChannel_idem mgrSample 2⟩

/-- Concrete instantiation of `Close_idem`. -/
theorem Close_idem_witness :
    (mgrSample.timer = none → mgrSample.timekeeperStopCh = none)
    ∧ (IsClose (Close mgrSample) = true
      ∧ (mgrSample.isClosed = true → Close mgrSample = mgrSample)
      ∧ Close (Close mgrSample) = Close mgrSample
      ∧ (mgrSample.isClosed = false →
          (Close mgrSample).streamMgr = none ∧ (Close mgrSample).timer = none
          ∧ (Close mgrSample).timekeeperStopCh = none
          ∧ (mgrSample.repoPresent = true → (Close mgrSample).repoClosed = true)
          ∧ (mgrSample.coordPresent = true → (Close mgrSample).coordTerminated = true)
          ∧ (mgrSample.eventMgrPresent = true → (Close mgrSample).eventMgrClosed = true)
          ∧ (mgrSample.reqHandlerPresent = true →
              (Close mgrSample).reqHandlerClosed = true))) := by
  exact ⟨by decide, Close_idem mgrSample (by decide)⟩

end IndexingMgr
